import Mathlib

/-!
Shallow embedding of `src/fileSorter.py`.

Files are modelled by their path strings; file contents are abstract
strings; the MD5 digest is modelled as an injective function of the
content (the design accepts digest collisions as negligible).  The
filesystem is an association list from path to content.  The worker
pool is modelled by a single worker draining the queue in FIFO order
(the fixed deterministic schedule); a separate small-step model
captures the interleaving of the dedup-index check and insert
performed by two concurrent workers.
-/

set_option autoImplicit false

namespace FileSorter

/-- Python values that can be members of the `processed_files` set:
`load_recovery` produces `str` values while the scan and the workers
test membership of `pathlib.Path` values.  In Python a `Path` object
never compares equal to a `str`, even when it denotes the same path. -/
inductive PyVal where
  | str (s : String)
  | path (s : String)
deriving DecidableEq, Repr

/-- Python equality on the values above: `Path == str` is `False`. -/
def pyEq : PyVal → PyVal → Bool
  | PyVal.str a, PyVal.str b => a == b
  | PyVal.path a, PyVal.path b => a == b
  | _, _ => false

/-- Python set membership for `processed_files`. -/
def pyMem (v : PyVal) : List PyVal → Bool
  | [] => false
  | w :: rest => pyEq v w || pyMem v rest

/-- A `pathlib.Path`, carried as its path string. -/
structure PyPath where
  s : String
deriving DecidableEq, Repr

/-- Final path component after the last slash, as Python `Path.name`. -/
def basename (s : String) : String :=
  String.mk ((s.toList.reverse.takeWhile (fun c => c ≠ '/')).reverse)

def PyPath.name (p : PyPath) : String := basename p.s

/-- Python `PurePath.suffix` on the final component: the substring from
the last dot, provided that dot is neither the first nor the last
character of the name; otherwise empty. -/
def pySuffix (n : String) : String :=
  let cs := n.toList
  let k := (cs.reverse.takeWhile (fun c => c ≠ '.')).length
  if k = cs.length then ""
  else if 0 < k ∧ k < cs.length - 1 then String.mk (cs.drop (cs.length - 1 - k)) else ""

def PyPath.suffix (p : PyPath) : String := pySuffix p.name

/-- Python `str.lstrip(".")`: drop all leading dots. -/
def lstripDots (s : String) : String :=
  String.mk (s.toList.dropWhile (fun c => c = '.'))

/-- Python `str.lower()`. -/
def pyLower (s : String) : String := String.mk (s.toList.map Char.toLower)

/-- Python `str.strip()` applied to each recovery line. -/
def pyStrip (s : String) : String :=
  String.mk (((s.toList.dropWhile Char.isWhitespace).reverse.dropWhile Char.isWhitespace).reverse)

/-- Line 16: the extension allow-list. -/
def allowed_types : List String := ["jpg", "png", "txt", "pdf", "docx"]

/-- Lines 85-87: a file is kept iff its lowercased extension (without
the leading dot) is in the allow-list. -/
def filter_files (fp : PyPath) : Bool :=
  allowed_types.contains (pyLower (lstripDots fp.suffix))

/-- Line 60: the destination folder name derived by the worker, the
lowercased extension with `no_extension` as the default for an empty
one (Python `or`). -/
def extensionOf (fp : PyPath) : String :=
  let e := pyLower (lstripDots fp.suffix)
  if e = "" then "no_extension" else e

/-- `os.path.join` for the relative joins used by the script. -/
def pathJoin (a b : String) : String := a ++ "/" ++ b

/-- The filesystem: an association of file path to file content.  The
first entry for a path wins, mirroring a map. -/
abbrev FS := List (String × String)

def fsLookup : FS → String → Option String
  | [], _ => none
  | e :: rest, p => if e.1 = p then some e.2 else fsLookup rest p

def fsErase : FS → String → FS
  | [], _ => []
  | e :: rest, p => if e.1 = p then fsErase rest p else e :: fsErase rest p

/-- Model of `shutil.move fs src dst`: the content found at `src` is
removed there and written at `dst`, silently replacing whatever file
was at `dst` (the behaviour of `os.rename` / `shutil.move` onto an
existing file path). -/
def shutilMove (fs : FS) (src dst : String) : FS :=
  match fsLookup fs src with
  | some c => (dst, c) :: fsErase (fsErase fs src) dst
  | none => fs

/-- The shared `file_hashes` dict: fingerprint to destination path. -/
abbrev Hashes := List (String × String)

/-- Lines 28-33: the MD5 digest of a file, a function of nothing but
the file content, modelled as injective (the design treats collisions
as negligible). -/
def calculate_checksum (content : String) : String := content

/-- Lines 36-41: read the recovery file into a set of stripped lines;
a missing file (`FileNotFoundError`) yields the empty set.  Note the
result holds `str` values. -/
def load_recovery : Option (List String) → List PyVal
  | none => []
  | some lines => lines.map (fun l => PyVal.str (pyStrip l))

/-- The mutable state threaded through a run: the filesystem, the
shared `file_hashes` dict, the `processed_files` set, and the lines
appended to the recovery file during this run. -/
structure RunState where
  fs : FS
  file_hashes : Hashes
  processed_files : List PyVal
  recovery : List String
deriving DecidableEq, Repr

/-- Lines 54-82: the body of the worker loop for one dequeued task.
`errs fp = true` models the environment raising an `IOError` while
hashing or moving `fp`; the `except` clause logs and abandons the
task, so the state is unchanged (in the original branch the
`file_hashes` insert at line 76 happens only after the move at line 74
succeeded).  Directory creation (`os.makedirs`) is not tracked: the
filesystem holds files only. -/
def workerTask (root_dir duplicate_dir : String) (errs : PyPath → Bool)
    (st : RunState) (file_path : PyPath) : RunState :=
  if pyMem (PyVal.path file_path.s) st.processed_files then st
  else
    match errs file_path, fsLookup st.fs file_path.s with
    | true, _ => st
    | false, none => st
    | false, some content =>
      let file_hash := calculate_checksum content
      if (fsLookup st.file_hashes file_hash).isSome then
        let duplicate_dest := pathJoin duplicate_dir file_path.name
        { st with fs := shutilMove st.fs file_path.s duplicate_dest,
                  processed_files := PyVal.path file_path.s :: st.processed_files,
                  recovery := st.recovery ++ [file_path.s] }
      else
        let dest_dir := pathJoin root_dir (extensionOf file_path)
        let dest_path := pathJoin dest_dir file_path.name
        { st with fs := shutilMove st.fs file_path.s dest_path,
                  file_hashes := (file_hash, dest_path) :: st.file_hashes,
                  processed_files := PyVal.path file_path.s :: st.processed_files,
                  recovery := st.recovery ++ [file_path.s] }

/-- Lines 49-52: a worker drains the queue; the pool is modelled by a
single worker consuming the tasks in FIFO order (the fixed
deterministic schedule). -/
def workerRun (root_dir duplicate_dir : String) (errs : PyPath → Bool)
    (st : RunState) (tasks : List PyPath) : RunState :=
  tasks.foldl (workerTask root_dir duplicate_dir errs) st

/-- The error-free environment. -/
def noErr : PyPath → Bool := fun _ => false

/-- The externally observable outcome of `sort_files`. -/
inductive Outcome where
  | noFiles
  | completed
deriving DecidableEq, Repr

/-- The initial filesystem for a scan input: each scanned file at its
source path with its content. -/
def initFS (tree : List (PyPath × String)) : FS :=
  tree.map (fun e => (e.1.s, e.2))

/-- Lines 98-101: the scan keeps the files that are not members of the
loaded recovery set, then enqueues those passing the allow-list. -/
def scanQueue (ledger : Option (List String)) (tree : List (PyPath × String)) : List PyPath :=
  ((tree.map (fun e => e.1)).filter
    (fun f => !pyMem (PyVal.path f.s) (load_recovery ledger))).filter filter_files

/-- Lines 90-118: load the recovery set, scan the tree excluding files
that are members of the set, filter by the allow-list, and either
report that there is nothing to process (line 104-106, before any
worker starts) or run the pool on the queue. -/
def sort_files (root_dir : String) (ledger : Option (List String))
    (tree : List (PyPath × String)) (errs : PyPath → Bool) : Outcome × RunState :=
  let duplicate_dir := pathJoin root_dir "duplicate_files"
  let queue := scanQueue ledger tree
  let st0 : RunState :=
    { fs := initFS tree, file_hashes := [], processed_files := load_recovery ledger,
      recovery := [] }
  if queue.length = 0 then (Outcome.noFiles, st0)
  else (Outcome.completed, workerRun root_dir duplicate_dir errs st0 queue)

/-- Result state of a run without environment errors. -/
def runResult (root_dir : String) (ledger : Option (List String))
    (tree : List (PyPath × String)) : RunState :=
  (sort_files root_dir ledger tree noErr).2

/-- Destination of a file placed as an original: its extension folder. -/
def extDest (root : String) (fp : PyPath) : String :=
  pathJoin (pathJoin root (extensionOf fp)) fp.name

/-- Destination of a file routed to the duplicates area. -/
def dupDest (root : String) (fp : PyPath) : String :=
  pathJoin (pathJoin root "duplicate_files") fp.name

/-- The two candidate destinations of a file. -/
def cands (root : String) (fp : PyPath) : List String :=
  [extDest root fp, dupDest root fp]

/-- Where a file goes given the set of contents hashed before it. -/
def placedDest (root : String) (seen : List String) (e : PyPath × String) : String :=
  if e.2 ∈ seen then dupDest root e.1 else extDest root e.1

/-- The final placement of a queue, in order. -/
def placeAll (root : String) (seen : List String) : List (PyPath × String) → List (String × String)
  | [] => []
  | e :: rest => (placedDest root seen e, e.2) :: placeAll root (seen ++ [e.2]) rest

/-- The destination recorded in `file_hashes` for a fingerprint: the
extension-folder destination of the first file carrying that content. -/
def firstOrigDest (root : String) : List (PyPath × String) → String → Option String
  | [], _ => none
  | e :: rest, h => if e.2 = h then some (extDest root e.1) else firstOrigDest root rest h

/-- Left-biased choice on optional lookup results, for stating that a
filesystem is a union of two disjoint association lists. -/
def orElseO : Option String → Option String → Option String
  | some c, _ => some c
  | none, b => b

/-- All candidate destinations of distinct queue entries are pairwise
distinct (this holds in particular when basenames are pairwise
distinct). -/
def DisjDests (root : String) (L : List (PyPath × String)) : Prop :=
  L.Pairwise (fun a b => ∀ x ∈ cands root a.1, ∀ y ∈ cands root b.1, x ≠ y)

/-- Source paths are pairwise distinct and no source path coincides
with any candidate destination. -/
def SrcsOK (root : String) (L : List (PyPath × String)) : Prop :=
  (∀ a ∈ L, ∀ b ∈ L, a.1.s ∉ cands root b.1) ∧ (L.map (fun e => e.1.s)).Nodup

instance (root : String) (L : List (PyPath × String)) : Decidable (DisjDests root L) := by
  unfold DisjDests
  infer_instance

instance (root : String) (L : List (PyPath × String)) : Decidable (SrcsOK root L) := by
  unfold SrcsOK
  infer_instance

/-! Small-step model of two workers racing on the shared `file_hashes`
dict for files with the same fingerprint, at the granularity of the
source: the dict read at line 66 and the dict write at line 76 are
separate unsynchronized operations with the file move between them
(`queue_mutex` guards only the dequeue at line 52). -/

/-- Local state of one worker handling its task: program counter 0
before the line-66 check, 1 after observing the fingerprint absent
(the worker now believes it is first and moves its file to the
extension folder), 2 done as duplicate, 3 done as original. -/
structure WLocal where
  pc : Nat
  believesFirst : Bool
deriving DecidableEq, Repr

/-- Shared dict plus the two workers. -/
structure ConcState where
  file_hashes : Hashes
  w : Fin 2 → WLocal

/-- One atomic step of worker `i`, both workers handling files with
the fingerprint `fh` and extension-folder destinations `d i`. -/
def concStep (fh : String) (d : Fin 2 → String) (st : ConcState) (i : Fin 2) : ConcState :=
  let l := st.w i
  if l.pc = 0 then
    if (fsLookup st.file_hashes fh).isSome then
      { st with w := fun j => if j = i then { pc := 2, believesFirst := false } else st.w j }
    else
      { st with w := fun j => if j = i then { pc := 1, believesFirst := true } else st.w j }
  else if l.pc = 1 then
    { file_hashes := (fh, d i) :: st.file_hashes,
      w := fun j => if j = i then { pc := 3, believesFirst := l.believesFirst } else st.w j }
  else st

/-- Run a schedule, an interleaving of the two workers, from the state
where the fingerprint has not been seen. -/
def concRun (fh : String) (d : Fin 2 → String) (sched : List (Fin 2)) : ConcState :=
  sched.foldl (concStep fh d) { file_hashes := [], w := fun _ => { pc := 0, believesFirst := false } }

/-! Counterexample scan inputs. -/

/-- Two files with the same basename and extension but distinct
contents, in different source folders. -/
def treeSameName : List (PyPath × String) :=
  [({ s := "r/d1/a.txt" }, "X"), ({ s := "r/d2/a.txt" }, "Y")]

/-- Same shape with different names and contents, for the C2 input. -/
def treeSameNamePng : List (PyPath × String) :=
  [({ s := "r/d1/b.png" }, "P"), ({ s := "r/d2/b.png" }, "Q")]

/-! Helper lemmas about the model. -/

theorem pyEq_iff (a b : PyVal) : pyEq a b = true ↔ a = b := by
  cases a <;> cases b <;> simp [pyEq]

theorem pyMem_cons (v w : PyVal) (l : List PyVal) :
    pyMem v (w :: l) = (pyEq v w || pyMem v l) := rfl

theorem pyMem_path_strs (s : String) (lines : List String) :
    pyMem (PyVal.path s) (lines.map (fun l => PyVal.str (pyStrip l))) = false := by
  induction lines with
  | nil => rfl
  | cons l rest ih => simpa [pyMem, pyEq] using ih

/-- A `Path` is never a member of the set returned by `load_recovery`,
whatever the ledger holds: the set holds only `str` values. -/
theorem pyMem_path_load_recovery (s : String) (ledger : Option (List String)) :
    pyMem (PyVal.path s) (load_recovery ledger) = false := by
  cases ledger with
  | none => rfl
  | some lines => exact pyMem_path_strs s lines

theorem fsLookup_fsErase (fs : FS) (q p : String) :
    fsLookup (fsErase fs q) p = if p = q then none else fsLookup fs p := by
  induction fs with
  | nil => simp [fsErase, fsLookup]
  | cons e rest ih =>
    by_cases h1 : e.1 = q <;> by_cases h2 : e.1 = p <;> by_cases h3 : p = q <;>
      simp_all [fsErase, fsLookup]

theorem fsLookup_shutilMove (fs : FS) (src dst p c : String)
    (h : fsLookup fs src = some c) :
    fsLookup (shutilMove fs src dst) p =
      if p = dst then some c else if p = src then none else fsLookup fs p := by
  unfold shutilMove
  rw [h]
  simp only [fsLookup]
  by_cases h1 : p = dst
  · simp [h1]
  · rw [if_neg (fun hh => h1 hh.symm), fsLookup_fsErase, if_neg h1, fsLookup_fsErase,
      if_neg h1]

theorem fsLookup_shutilMove_other (fs : FS) (src dst p : String)
    (h1 : p ≠ src) (h2 : p ≠ dst) :
    fsLookup (shutilMove fs src dst) p = fsLookup fs p := by
  cases hc : fsLookup fs src with
  | none => simp [shutilMove, hc]
  | some c => rw [fsLookup_shutilMove fs src dst p c hc, if_neg h2, if_neg h1]

/-- A task never touches a path that is neither its source nor one of
its two candidate destinations. -/
theorem workerTask_fs_other (root dupdir : String) (errs : PyPath → Bool)
    (st : RunState) (fp : PyPath) (p : String)
    (h1 : p ≠ fp.s) (h2 : p ≠ extDest root fp) (h3 : p ≠ pathJoin dupdir fp.name) :
    fsLookup (workerTask root dupdir errs st fp).fs p = fsLookup st.fs p := by
  unfold workerTask
  by_cases hm : pyMem (PyVal.path fp.s) st.processed_files = true
  · simp [hm]
  · cases he : errs fp with
    | true => simp [hm, he]
    | false =>
      cases hl : fsLookup st.fs fp.s with
      | none => simp [hm, he, hl]
      | some c =>
        by_cases hh : (fsLookup st.file_hashes (calculate_checksum c)).isSome = true
        · simp only [hm, he, hl, Bool.false_eq_true, if_false, hh, if_true]
          exact fsLookup_shutilMove_other st.fs fp.s (pathJoin dupdir fp.name) p h1 h3
        · simp only [hm, he, hl, Bool.false_eq_true, if_false, hh]
          exact fsLookup_shutilMove_other st.fs fp.s
            (pathJoin (pathJoin root (extensionOf fp)) fp.name) p h1 h2

/-- A run never touches a path that is no task's source nor candidate
destination. -/
theorem workerRun_fs_other (root dupdir : String) (errs : PyPath → Bool)
    (st : RunState) (tasks : List PyPath) (p : String)
    (h : ∀ g ∈ tasks, p ≠ g.s ∧ p ≠ extDest root g ∧ p ≠ pathJoin dupdir g.name) :
    fsLookup (workerRun root dupdir errs st tasks).fs p = fsLookup st.fs p := by
  induction tasks generalizing st with
  | nil => rfl
  | cons g rest ih =>
    have hg := h g (by simp)
    simp only [workerRun, List.foldl_cons]
    rw [show (List.foldl (workerTask root dupdir errs)
          (workerTask root dupdir errs st g) rest)
        = workerRun root dupdir errs (workerTask root dupdir errs st g) rest from rfl,
      ih (workerTask root dupdir errs st g) (fun x hx => h x (by simp [hx]))]
    exact workerTask_fs_other root dupdir errs st g p hg.1 hg.2.1 hg.2.2

/-- The processed set grows only by the path of the handled task. -/
theorem workerTask_processed (root dupdir : String) (errs : PyPath → Bool)
    (st : RunState) (fp : PyPath) (v : PyVal)
    (h : pyMem v (workerTask root dupdir errs st fp).processed_files = true) :
    pyMem v st.processed_files = true ∨ v = PyVal.path fp.s := by
  unfold workerTask at h
  by_cases hm : pyMem (PyVal.path fp.s) st.processed_files = true
  · simp [hm] at h; exact Or.inl h
  · cases he : errs fp with
    | true => simp [hm, he] at h; exact Or.inl h
    | false =>
      cases hl : fsLookup st.fs fp.s with
      | none => simp [hm, he, hl] at h; exact Or.inl h
      | some c =>
        by_cases hh : (fsLookup st.file_hashes (calculate_checksum c)).isSome = true <;>
          · simp only [hm, he, hl, hh, Bool.false_eq_true, if_false, if_true] at h
            rw [pyMem_cons, Bool.or_eq_true] at h
            rcases h with h | h
            · exact Or.inr ((pyEq_iff v (PyVal.path fp.s)).mp h)
            · exact Or.inl h

theorem workerRun_processed (root dupdir : String) (errs : PyPath → Bool)
    (st : RunState) (tasks : List PyPath) (v : PyVal)
    (h : pyMem v (workerRun root dupdir errs st tasks).processed_files = true) :
    pyMem v st.processed_files = true ∨ ∃ g ∈ tasks, v = PyVal.path g.s := by
  induction tasks generalizing st with
  | nil => exact Or.inl h
  | cons g rest ih =>
    simp only [workerRun, List.foldl_cons] at h
    rcases ih (workerTask root dupdir errs st g) h with h' | ⟨x, hx, hv⟩
    · rcases workerTask_processed root dupdir errs st g v h' with h'' | h''
      · exact Or.inl h''
      · exact Or.inr ⟨g, by simp, h''⟩
    · exact Or.inr ⟨x, by simp [hx], hv⟩

/-- The recovery file grows only by the path of the handled task. -/
theorem workerTask_recovery (root dupdir : String) (errs : PyPath → Bool)
    (st : RunState) (fp : PyPath) (q : String)
    (h : q ∈ (workerTask root dupdir errs st fp).recovery) :
    q ∈ st.recovery ∨ q = fp.s := by
  unfold workerTask at h
  by_cases hm : pyMem (PyVal.path fp.s) st.processed_files = true
  · simp [hm] at h; exact Or.inl h
  · cases he : errs fp with
    | true => simp [hm, he] at h; exact Or.inl h
    | false =>
      cases hl : fsLookup st.fs fp.s with
      | none => simp [hm, he, hl] at h; exact Or.inl h
      | some c =>
        by_cases hh : (fsLookup st.file_hashes (calculate_checksum c)).isSome = true <;>
          · simp only [hm, he, hl, hh, Bool.false_eq_true, if_false, if_true] at h
            simpa using h

theorem workerRun_recovery (root dupdir : String) (errs : PyPath → Bool)
    (st : RunState) (tasks : List PyPath) (q : String)
    (h : q ∈ (workerRun root dupdir errs st tasks).recovery) :
    q ∈ st.recovery ∨ ∃ g ∈ tasks, q = g.s := by
  induction tasks generalizing st with
  | nil => exact Or.inl h
  | cons g rest ih =>
    simp only [workerRun, List.foldl_cons] at h
    rcases ih (workerTask root dupdir errs st g) h with h' | ⟨x, hx, hv⟩
    · rcases workerTask_recovery root dupdir errs st g q h' with h'' | h''
      · exact Or.inl h''
      · exact Or.inr ⟨g, by simp, h''⟩
    · exact Or.inr ⟨x, by simp [hx], hv⟩

/-- A task whose processing raises an error leaves the state unchanged:
the move did not happen, and neither the processed set, the dedup
index, nor the recovery file gained an entry. -/
theorem workerTask_err (root dupdir : String) (errs : PyPath → Bool)
    (st : RunState) (fp : PyPath) (he : errs fp = true) :
    workerTask root dupdir errs st fp = st := by
  unfold workerTask
  by_cases hm : pyMem (PyVal.path fp.s) st.processed_files = true
  · simp [hm]
  · simp [hm, he]

/-- The duplicate branch (lines 66-71): the fingerprint is already in
the dict, so the file is moved to the duplicates folder under its
unchanged basename and the dict is not updated. -/
theorem workerTask_dup_branch (root dupdir : String) (st : RunState) (fp : PyPath) (c : String)
    (hp : pyMem (PyVal.path fp.s) st.processed_files = false)
    (hl : fsLookup st.fs fp.s = some c)
    (hh : (fsLookup st.file_hashes (calculate_checksum c)).isSome = true) :
    workerTask root dupdir noErr st fp =
      { st with fs := shutilMove st.fs fp.s (pathJoin dupdir fp.name),
                processed_files := PyVal.path fp.s :: st.processed_files,
                recovery := st.recovery ++ [fp.s] } := by
  simp [workerTask, hp, noErr, hl, hh]

/-- The original branch (lines 72-76): the fingerprint is new, so the
file is moved into its extension folder and the dict gains the entry
fingerprint to destination. -/
theorem workerTask_orig_branch (root dupdir : String) (st : RunState) (fp : PyPath) (c : String)
    (hp : pyMem (PyVal.path fp.s) st.processed_files = false)
    (hl : fsLookup st.fs fp.s = some c)
    (hh : fsLookup st.file_hashes (calculate_checksum c) = none) :
    workerTask root dupdir noErr st fp =
      { st with fs := shutilMove st.fs fp.s (pathJoin (pathJoin root (extensionOf fp)) fp.name),
                file_hashes := (calculate_checksum c,
                  pathJoin (pathJoin root (extensionOf fp)) fp.name) :: st.file_hashes,
                processed_files := PyVal.path fp.s :: st.processed_files,
                recovery := st.recovery ++ [fp.s] } := by
  simp [workerTask, hp, noErr, hl, hh]

theorem orElseO_none_left (b : Option String) : orElseO none b = b := rfl

theorem orElseO_none_right (a : Option String) : orElseO a none = a := by
  cases a <;> rfl

theorem fsLookup_append (A B : FS) (p : String) :
    fsLookup (A ++ B) p = orElseO (fsLookup A p) (fsLookup B p) := by
  induction A with
  | nil => rfl
  | cons e rest ih =>
    by_cases h : e.1 = p <;> simp [fsLookup, h, ih, orElseO]

theorem fsLookup_initFS_none (l : List (PyPath × String)) (p : String)
    (h : ∀ e ∈ l, e.1.s ≠ p) :
    fsLookup (initFS l) p = none := by
  induction l with
  | nil => rfl
  | cons e rest ih =>
    show fsLookup ((e.1.s, e.2) :: initFS rest) p = none
    simp only [fsLookup]
    rw [if_neg (h e (by simp)), ih (fun x hx => h x (by simp [hx]))]

theorem extDest_mem_cands (root : String) (fp : PyPath) : extDest root fp ∈ cands root fp := by
  simp [cands]

theorem dupDest_mem_cands (root : String) (fp : PyPath) : dupDest root fp ∈ cands root fp := by
  simp [cands]

theorem placedDest_mem_cands (root : String) (seen : List String) (e : PyPath × String) :
    placedDest root seen e ∈ cands root e.1 := by
  unfold placedDest
  by_cases hx : e.2 ∈ seen <;> simp [hx, cands]

theorem firstOrigDest_append (root : String) (l : List (PyPath × String))
    (e : PyPath × String) (h : String) :
    firstOrigDest root (l ++ [e]) h =
      match firstOrigDest root l h with
      | some d => some d
      | none => if e.2 = h then some (extDest root e.1) else none := by
  induction l with
  | nil => simp [firstOrigDest]
  | cons x rest ih =>
    by_cases hx : x.2 = h <;> simp [firstOrigDest, hx, ih]

theorem firstOrigDest_isSome (root : String) (l : List (PyPath × String)) (h : String) :
    (firstOrigDest root l h).isSome = true ↔ h ∈ l.map (fun e => e.2) := by
  induction l with
  | nil => simp [firstOrigDest]
  | cons x rest ih =>
    simp only [firstOrigDest, List.map_cons, List.mem_cons]
    by_cases hx : x.2 = h
    · simp [hx]
    · rw [if_neg hx, ih]
      constructor
      · exact fun hm => Or.inr hm
      · rintro (hm | hm)
        · exact absurd hm.symm hx
        · exact hm

theorem placeAll_append (root : String) (l1 l2 : List (PyPath × String)) :
    ∀ seen, placeAll root seen (l1 ++ l2) =
      placeAll root seen l1 ++ placeAll root (seen ++ l1.map (fun e => e.2)) l2 := by
  induction l1 with
  | nil => intro seen; simp [placeAll]
  | cons x rest ih =>
    intro seen
    show (placedDest root seen x, x.2) :: placeAll root (seen ++ [x.2]) (rest ++ l2)
      = (placedDest root seen x, x.2) ::
        (placeAll root (seen ++ [x.2]) rest
          ++ placeAll root (seen ++ x.2 :: List.map (fun e => e.2) rest) l2)
    rw [ih (seen ++ [x.2]), List.append_assoc]
    rfl

theorem fsLookup_placeAll_none (root : String) (p : String) :
    ∀ (l : List (PyPath × String)) (seen : List String),
    (∀ e ∈ l, p ∉ cands root e.1) →
    fsLookup (placeAll root seen l) p = none := by
  intro l
  induction l with
  | nil => intro seen _; rfl
  | cons x rest ih =>
    intro seen h
    have hx := h x (by simp)
    simp only [placeAll, fsLookup]
    rw [if_neg (by
        intro hq
        exact hx (by rw [← hq]; exact placedDest_mem_cands root seen x)),
      ih (seen ++ [x.2]) (fun e he => h e (by simp [he]))]

theorem fsLookup_placeAll_single (root : String) (seen : List String)
    (e : PyPath × String) (p : String) :
    fsLookup (placeAll root seen [e]) p
      = if placedDest root seen e = p then some e.2 else none := rfl

/-- The main run invariant.  Starting from a state whose filesystem is
the placement of `pre` next to the untouched sources of `todo`, whose
dedup index is that of `pre`, and whose processed set covers exactly
the source paths of `pre` beyond the initial entries `P0`, a run over
the tasks of `todo` produces the placement and the index of
`pre ++ todo`, provided all candidate destinations are pairwise
distinct and distinct from all sources. -/
theorem workerRun_master (root : String) (P0 : List PyVal) :
    ∀ (todo pre : List (PyPath × String)) (st : RunState),
    DisjDests root (pre ++ todo) →
    SrcsOK root (pre ++ todo) →
    (∀ e ∈ pre ++ todo, pyMem (PyVal.path e.1.s) P0 = false) →
    (∀ p, fsLookup st.fs p
      = orElseO (fsLookup (placeAll root [] pre) p) (fsLookup (initFS todo) p)) →
    (∀ h, fsLookup st.file_hashes h = firstOrigDest root pre h) →
    (∀ x, pyMem (PyVal.path x) st.processed_files = true ↔
      (x ∈ pre.map (fun e => e.1.s) ∨ pyMem (PyVal.path x) P0 = true)) →
    (∀ p, fsLookup (workerRun root (pathJoin root "duplicate_files") noErr st
        (todo.map (fun e => e.1))).fs p
      = fsLookup (placeAll root [] (pre ++ todo)) p) ∧
    (∀ h, fsLookup (workerRun root (pathJoin root "duplicate_files") noErr st
        (todo.map (fun e => e.1))).file_hashes h
      = firstOrigDest root (pre ++ todo) h) := by
  intro todo
  induction todo with
  | nil =>
    intro pre st _ _ _ hfs hhash _
    constructor
    · intro p
      have h0 := hfs p
      rw [show fsLookup (initFS ([] : List (PyPath × String))) p = none from rfl,
        orElseO_none_right] at h0
      simpa [workerRun] using h0
    · intro h
      simpa [workerRun] using hhash h
  | cons e rest ih =>
    intro pre st hD hS hP hfs hhash hproc
    have heL : e ∈ pre ++ e :: rest := by simp
    have hassoc : (pre ++ [e]) ++ rest = pre ++ e :: rest := by simp
    have hnd := hS.2
    rw [List.map_append, List.map_cons] at hnd
    have hnd3 := List.nodup_append.mp hnd
    have hepre : e.1.s ∉ pre.map (fun x => x.1.s) := fun hx => hnd3.2.2 hx (by simp)
    have herest : e.1.s ∉ rest.map (fun x => x.1.s) := (List.nodup_cons.mp hnd3.2.1).1
    have hskip : pyMem (PyVal.path e.1.s) st.processed_files = false := by
      cases hb : pyMem (PyVal.path e.1.s) st.processed_files with
      | false => rfl
      | true =>
        rcases (hproc e.1.s).mp hb with hx | hx
        · exact absurd hx hepre
        · rw [hP e heL] at hx
          exact absurd hx (by simp)
    have hplpre_src : fsLookup (placeAll root [] pre) e.1.s = none := by
      apply fsLookup_placeAll_none
      intro x hx
      exact hS.1 e heL x (by simp [hx])
    have hsrc : fsLookup st.fs e.1.s = some e.2 := by
      rw [hfs e.1.s, hplpre_src, orElseO_none_left]
      show fsLookup ((e.1.s, e.2) :: initFS rest) e.1.s = some e.2
      simp [fsLookup]
    have hDsplit := List.pairwise_append.mp hD
    have hRpre_e : ∀ x ∈ pre, ∀ u ∈ cands root x.1, ∀ v ∈ cands root e.1, u ≠ v :=
      fun x hx => hDsplit.2.2 x hx e (by simp)
    have hsrcO : e.1.s ∉ cands root e.1 := hS.1 e heL e heL
    have hinitrest_src : fsLookup (initFS rest) e.1.s = none := by
      apply fsLookup_initFS_none
      intro x hx hq
      exact herest (List.mem_map.mpr ⟨x, hx, hq⟩)
    have hD' : DisjDests root ((pre ++ [e]) ++ rest) := by rw [hassoc]; exact hD
    have hS' : SrcsOK root ((pre ++ [e]) ++ rest) := by rw [hassoc]; exact hS
    have hP' : ∀ x ∈ (pre ++ [e]) ++ rest, pyMem (PyVal.path x.1.s) P0 = false := by
      rw [hassoc]; exact hP
    have hproc' : ∀ x, pyMem (PyVal.path x) (PyVal.path e.1.s :: st.processed_files) = true ↔
        (x ∈ ((pre ++ [e]).map (fun y => y.1.s)) ∨ pyMem (PyVal.path x) P0 = true) := by
      intro x
      rw [pyMem_cons, Bool.or_eq_true, pyEq_iff]
      simp only [List.map_append, List.map_cons, List.map_nil, List.mem_append,
        List.mem_singleton, PyVal.path.injEq]
      rw [hproc x]
      tauto
    cases hc : firstOrigDest root pre e.2 with
    | some d =>
      have hin : e.2 ∈ pre.map (fun x => x.2) :=
        (firstOrigDest_isSome root pre e.2).mp (by rw [hc]; rfl)
      have hDe : placedDest root ([] ++ pre.map (fun x => x.2)) e = dupDest root e.1 := by
        rw [List.nil_append]
        unfold placedDest
        rw [if_pos hin]
      have hDmem : dupDest root e.1 ∈ cands root e.1 := dupDest_mem_cands root e.1
      have hbranch : workerTask root (pathJoin root "duplicate_files") noErr st e.1
          = { st with fs := shutilMove st.fs e.1.s (dupDest root e.1),
                      processed_files := PyVal.path e.1.s :: st.processed_files,
                      recovery := st.recovery ++ [e.1.s] } :=
        workerTask_dup_branch root (pathJoin root "duplicate_files") st e.1 e.2 hskip hsrc
          (by show (fsLookup st.file_hashes e.2).isSome = true; rw [hhash e.2, hc]; rfl)
      have hplpre_D : fsLookup (placeAll root [] pre) (dupDest root e.1) = none := by
        apply fsLookup_placeAll_none
        intro x hx hmem
        exact hRpre_e x hx (dupDest root e.1) hmem (dupDest root e.1) hDmem rfl
      have hfs' : ∀ p, fsLookup (shutilMove st.fs e.1.s (dupDest root e.1)) p
          = orElseO (fsLookup (placeAll root [] (pre ++ [e])) p)
              (fsLookup (initFS rest) p) := by
        intro p
        rw [placeAll_append root pre [e] [], fsLookup_append,
          fsLookup_shutilMove st.fs e.1.s (dupDest root e.1) p e.2 hsrc]
        by_cases hpD : p = dupDest root e.1
        · rw [if_pos hpD, hpD, hplpre_D, orElseO_none_left, fsLookup_placeAll_single, hDe,
            if_pos rfl]
          rfl
        · rw [if_neg hpD]
          by_cases hps : p = e.1.s
          · rw [if_pos hps, hps, hplpre_src, orElseO_none_left, fsLookup_placeAll_single, hDe,
              if_neg (by intro hq; exact hsrcO (hq ▸ hDmem)), orElseO_none_left, hinitrest_src]
          · rw [if_neg hps, hfs p, fsLookup_placeAll_single, hDe,
              if_neg (fun hq => hpD hq.symm), orElseO_none_right]
            show orElseO (fsLookup (placeAll root [] pre) p)
                (fsLookup ((e.1.s, e.2) :: initFS rest) p)
              = orElseO (fsLookup (placeAll root [] pre) p) (fsLookup (initFS rest) p)
            rw [show fsLookup ((e.1.s, e.2) :: initFS rest) p = fsLookup (initFS rest) p from by
              simp only [fsLookup]
              rw [if_neg (fun hq => hps hq.symm)]]
      have hhash' : ∀ h2, fsLookup st.file_hashes h2 = firstOrigDest root (pre ++ [e]) h2 := by
        intro h2
        rw [hhash h2, firstOrigDest_append]
        cases hq : firstOrigDest root pre h2 with
        | some d2 => simp [hq]
        | none =>
          simp only [hq]
          rw [if_neg (by
            intro he2
            rw [← he2] at hq
            rw [hq] at hc
            exact Option.noConfusion hc)]
      have hm := ih (pre ++ [e])
        { st with fs := shutilMove st.fs e.1.s (dupDest root e.1),
                  processed_files := PyVal.path e.1.s :: st.processed_files,
                  recovery := st.recovery ++ [e.1.s] }
        hD' hS' hP' hfs' hhash' hproc'
      have hrun : workerRun root (pathJoin root "duplicate_files") noErr st
          ((e :: rest).map (fun x => x.1))
          = workerRun root (pathJoin root "duplicate_files") noErr
            { st with fs := shutilMove st.fs e.1.s (dupDest root e.1),
                      processed_files := PyVal.path e.1.s :: st.processed_files,
                      recovery := st.recovery ++ [e.1.s] }
            (rest.map (fun x => x.1)) := by
        show workerRun root (pathJoin root "duplicate_files") noErr
          (workerTask root (pathJoin root "duplicate_files") noErr st e.1)
          (rest.map (fun x => x.1)) = _
        rw [hbranch]
      rw [← hassoc]
      exact ⟨fun p => by rw [hrun]; exact hm.1 p, fun h2 => by rw [hrun]; exact hm.2 h2⟩
    | none =>
      have hnotin : e.2 ∉ pre.map (fun x => x.2) := by
        intro hin
        have h' := (firstOrigDest_isSome root pre e.2).mpr hin
        rw [hc] at h'
        exact Bool.noConfusion h'
      have hDe : placedDest root ([] ++ pre.map (fun x => x.2)) e = extDest root e.1 := by
        rw [List.nil_append]
        unfold placedDest
        rw [if_neg hnotin]
      have hDmem : extDest root e.1 ∈ cands root e.1 := extDest_mem_cands root e.1
      have hbranch : workerTask root (pathJoin root "duplicate_files") noErr st e.1
          = { st with fs := shutilMove st.fs e.1.s (extDest root e.1),
                      file_hashes := (e.2, extDest root e.1) :: st.file_hashes,
                      processed_files := PyVal.path e.1.s :: st.processed_files,
                      recovery := st.recovery ++ [e.1.s] } :=
        workerTask_orig_branch root (pathJoin root "duplicate_files") st e.1 e.2 hskip hsrc
          (by show fsLookup st.file_hashes e.2 = none; rw [hhash e.2, hc])
      have hplpre_D : fsLookup (placeAll root [] pre) (extDest root e.1) = none := by
        apply fsLookup_placeAll_none
        intro x hx hmem
        exact hRpre_e x hx (extDest root e.1) hmem (extDest root e.1) hDmem rfl
      have hfs' : ∀ p, fsLookup (shutilMove st.fs e.1.s (extDest root e.1)) p
          = orElseO (fsLookup (placeAll root [] (pre ++ [e])) p)
              (fsLookup (initFS rest) p) := by
        intro p
        rw [placeAll_append root pre [e] [], fsLookup_append,
          fsLookup_shutilMove st.fs e.1.s (extDest root e.1) p e.2 hsrc]
        by_cases hpD : p = extDest root e.1
        · rw [if_pos hpD, hpD, hplpre_D, orElseO_none_left, fsLookup_placeAll_single, hDe,
            if_pos rfl]
          rfl
        · rw [if_neg hpD]
          by_cases hps : p = e.1.s
          · rw [if_pos hps, hps, hplpre_src, orElseO_none_left, fsLookup_placeAll_single, hDe,
              if_neg (by intro hq; exact hsrcO (hq ▸ hDmem)), orElseO_none_left, hinitrest_src]
          · rw [if_neg hps, hfs p, fsLookup_placeAll_single, hDe,
              if_neg (fun hq => hpD hq.symm), orElseO_none_right]
            show orElseO (fsLookup (placeAll root [] pre) p)
                (fsLookup ((e.1.s, e.2) :: initFS rest) p)
              = orElseO (fsLookup (placeAll root [] pre) p) (fsLookup (initFS rest) p)
            rw [show fsLookup ((e.1.s, e.2) :: initFS rest) p = fsLookup (initFS rest) p from by
              simp only [fsLookup]
              rw [if_neg (fun hq => hps hq.symm)]]
      have hhash' : ∀ h2, fsLookup ((e.2, extDest root e.1) :: st.file_hashes) h2
          = firstOrigDest root (pre ++ [e]) h2 := by
        intro h2
        rw [firstOrigDest_append]
        show (if e.2 = h2 then some (extDest root e.1) else fsLookup st.file_hashes h2) = _
        by_cases he2 : e.2 = h2
        · have hq : firstOrigDest root pre h2 = none := by rw [← he2]; exact hc
          rw [if_pos he2]
          simp only [hq]
          rw [if_pos he2]
        · rw [if_neg he2, hhash h2]
          cases hq : firstOrigDest root pre h2 with
          | some d2 => simp [hq]
          | none =>
            simp only [hq]
            rw [if_neg he2]
      have hm := ih (pre ++ [e])
        { st with fs := shutilMove st.fs e.1.s (extDest root e.1),
                  file_hashes := (e.2, extDest root e.1) :: st.file_hashes,
                  processed_files := PyVal.path e.1.s :: st.processed_files,
                  recovery := st.recovery ++ [e.1.s] }
        hD' hS' hP' hfs' hhash' hproc'
      have hrun : workerRun root (pathJoin root "duplicate_files") noErr st
          ((e :: rest).map (fun x => x.1))
          = workerRun root (pathJoin root "duplicate_files") noErr
            { st with fs := shutilMove st.fs e.1.s (extDest root e.1),
                      file_hashes := (e.2, extDest root e.1) :: st.file_hashes,
                      processed_files := PyVal.path e.1.s :: st.processed_files,
                      recovery := st.recovery ++ [e.1.s] }
            (rest.map (fun x => x.1)) := by
        show workerRun root (pathJoin root "duplicate_files") noErr
          (workerTask root (pathJoin root "duplicate_files") noErr st e.1)
          (rest.map (fun x => x.1)) = _
        rw [hbranch]
      rw [← hassoc]
      exact ⟨fun p => by rw [hrun]; exact hm.1 p, fun h2 => by rw [hrun]; exact hm.2 h2⟩

theorem scanQueue_all (ledger : Option (List String)) (tree : List (PyPath × String))
    (HF : ∀ e ∈ tree, filter_files e.1 = true) :
    scanQueue ledger tree = tree.map (fun e => e.1) := by
  unfold scanQueue
  have hinner : (tree.map (fun e => e.1)).filter
      (fun f => !pyMem (PyVal.path f.s) (load_recovery ledger)) = tree.map (fun e => e.1) :=
    List.filter_eq_self.mpr (by intro a _; simp [pyMem_path_load_recovery])
  rw [hinner]
  exact List.filter_eq_self.mpr (by
    intro a ha
    rcases List.mem_map.mp ha with ⟨x, hx, hxa⟩
    rw [← hxa]
    exact HF x hx)

theorem fsLookup_placeAll_split (root : String) (pre post : List (PyPath × String))
    (e : PyPath × String)
    (HD : DisjDests root (pre ++ e :: post)) :
    fsLookup (placeAll root [] (pre ++ e :: post))
      (placedDest root (pre.map (fun x => x.2)) e) = some e.2 := by
  have hpnone : fsLookup (placeAll root [] pre)
      (placedDest root (pre.map (fun x => x.2)) e) = none := by
    apply fsLookup_placeAll_none
    intro x hx hmem
    exact (List.pairwise_append.mp HD).2.2 x hx e (by simp)
      (placedDest root (pre.map (fun x => x.2)) e) hmem
      (placedDest root (pre.map (fun x => x.2)) e)
      (placedDest_mem_cands root (pre.map (fun x => x.2)) e) rfl
  rw [placeAll_append root pre (e :: post) [], fsLookup_append, hpnone, orElseO_none_left]
  show fsLookup ((placedDest root ([] ++ pre.map (fun x => x.2)) e, e.2)
      :: placeAll root (([] ++ pre.map (fun x => x.2)) ++ [e.2]) post)
    (placedDest root (pre.map (fun x => x.2)) e) = some e.2
  simp only [fsLookup]
  rw [if_pos (by rw [List.nil_append])]

/-- The final state of an error-free run over a tree of allow-listed
files, under the distinct-destination proviso: the filesystem is the
placement map of the queue and the dedup index records the first
original of every fingerprint. -/
theorem runResult_spec (root : String) (ledger : Option (List String))
    (tree : List (PyPath × String))
    (HD : DisjDests root tree) (HS : SrcsOK root tree)
    (HF : ∀ e ∈ tree, filter_files e.1 = true) :
    (∀ p, fsLookup (runResult root ledger tree).fs p = fsLookup (placeAll root [] tree) p) ∧
    (∀ h, fsLookup (runResult root ledger tree).file_hashes h
      = firstOrigDest root tree h) := by
  have hq := scanQueue_all ledger tree HF
  by_cases hz : (scanQueue ledger tree).length = 0
  · have htree : tree = [] := by
      rw [hq] at hz
      exact List.map_eq_nil_iff.mp (List.length_eq_zero.mp hz)
    subst htree
    constructor
    · intro p
      simp [runResult, sort_files, scanQueue, initFS, placeAll, fsLookup]
    · intro h
      simp [runResult, sort_files, scanQueue, firstOrigDest, fsLookup]
  · have hres : runResult root ledger tree
        = workerRun root (pathJoin root "duplicate_files") noErr
          { fs := initFS tree, file_hashes := [],
            processed_files := load_recovery ledger, recovery := [] }
          (scanQueue ledger tree) := by
      simp [runResult, sort_files, hz]
    have hm := workerRun_master root (load_recovery ledger) tree []
      { fs := initFS tree, file_hashes := [],
        processed_files := load_recovery ledger, recovery := [] }
      (by simpa using HD) (by simpa using HS)
      (by intro x _; exact pyMem_path_load_recovery x.1.s ledger)
      (fun p => rfl) (fun h => rfl)
      (by intro x; simp [pyMem_path_load_recovery])
    constructor
    · intro p
      rw [hres, hq]
      simpa using hm.1 p
    · intro h
      rw [hres, hq]
      simpa using hm.2 h

/-- C1, counterexample.  Both files of `treeSameName` are present at
scan time and enqueued, yet after the run the second move has silently
overwritten the first: the shared destination holds the second content
and the first content exists at no path under the root. -/
theorem c1_counterexample :
    fsLookup (initFS treeSameName) "r/d1/a.txt" = some "X" ∧
    fsLookup (runResult "r" none treeSameName).fs "r/txt/a.txt" = some "Y" ∧
    ((runResult "r" none treeSameName).fs.all (fun e => !(e.2 == "X"))) = true := by
  decide

/-- C2, counterexample.  The target filename `r/png/b.png` already
holds the first (distinct-content) file when the second is processed,
yet the second is not placed in the duplicates location: it is written
over the file at that destination, whose content is lost. -/
theorem c2_counterexample :
    fsLookup (runResult "r" none treeSameNamePng).fs "r/png/b.png" = some "Q" ∧
    fsLookup (runResult "r" none treeSameNamePng).fs "r/duplicate_files/b.png" = none ∧
    ((runResult "r" none treeSameNamePng).fs.all (fun e => !(e.2 == "P"))) = true := by
  decide

/-- C3, code bug.  The path `r/a.txt` is recorded in the recovery
ledger before the run, but `load_recovery` yields `str` values while
the scan and the worker test membership of `Path` values, which in
Python never compare equal to a `str`: the recorded path is not a
member of the loaded set, is re-queued, and is re-moved by the run. -/
theorem c3_recorded_path_requeued :
    pyMem (PyVal.path "r/a.txt") (load_recovery (some ["r/a.txt"])) = false ∧
    (sort_files "r" (some ["r/a.txt"]) [({ s := "r/a.txt" }, "X")] noErr).1 = Outcome.completed ∧
    fsLookup (sort_files "r" (some ["r/a.txt"]) [({ s := "r/a.txt" }, "X")] noErr).2.fs "r/txt/a.txt"
      = some "X" ∧
    fsLookup (sort_files "r" (some ["r/a.txt"]) [({ s := "r/a.txt" }, "X")] noErr).2.fs "r/a.txt"
      = none := by
  decide

/-- Destinations used in the C4 interleaving. -/
def concDests : Fin 2 → String := fun i => if i.val = 0 then "r/txt/a.txt" else "r/txt/b.txt"

/-- C4, code bug.  Under the interleaving in which both workers
execute the line-66 dict read before either reaches the line-76 dict
write, both observe the fingerprint absent and both complete as the
original for the same fingerprint: the check-then-insert is not
atomic, and the second write replaces the first entry. -/
theorem c4_check_then_insert_not_atomic :
    ((concRun "h" concDests [0, 1, 0, 1]).w 0).believesFirst = true ∧
    ((concRun "h" concDests [0, 1, 0, 1]).w 1).believesFirst = true ∧
    ((concRun "h" concDests [0, 1, 0, 1]).w 0).pc = 3 ∧
    ((concRun "h" concDests [0, 1, 0, 1]).w 1).pc = 3 ∧
    fsLookup (concRun "h" concDests [0, 1, 0, 1]).file_hashes "h" = some "r/txt/b.txt" := by
  decide

/-- C5, counterexample.  An already-fully-sorted tree: the single file
was relocated to `r/txt/a.txt` by a previous run which recorded its
source path `r/a.txt` in the ledger.  Re-running does not report the
nothing-to-do outcome: the relocated file is re-enqueued and the run
re-processes it (it appears in the new recovery entries). -/
theorem c5_counterexample :
    (sort_files "r" (some ["r/a.txt"]) [({ s := "r/txt/a.txt" }, "X")] noErr).1
      = Outcome.completed ∧
    (sort_files "r" (some ["r/a.txt"]) [({ s := "r/txt/a.txt" }, "X")] noErr).2.recovery
      = ["r/txt/a.txt"] := by
  decide

/-- C6, counterexample.  A file without an extension is present under
the root at scan time, but its empty extension is not in the
allow-list, so the run enqueues nothing, reports no files, and leaves
the file at its source instead of relocating it to `r/no_extension`. -/
theorem c6_counterexample :
    filter_files { s := "r/README" } = false ∧
    (sort_files "r" none [({ s := "r/README" }, "X")] noErr).1 = Outcome.noFiles ∧
    fsLookup (sort_files "r" none [({ s := "r/README" }, "X")] noErr).2.fs "r/README"
      = some "X" ∧
    fsLookup (sort_files "r" none [({ s := "r/README" }, "X")] noErr).2.fs "r/no_extension/README"
      = none := by
  decide

/-- C8.  A task whose processing raises a per-file error is logged and
abandoned: the run is identical to the run without that task, so the
worker continues with the remaining tasks and neither the worker nor
the run terminates; the failed path is never added to the processed
set nor recorded in the recovery file, so a later run will see it
again. -/
theorem c8_per_file_error_abandoned (root dupdir : String) (errs : PyPath → Bool)
    (st : RunState) (ts1 ts2 : List PyPath) (fp : PyPath)
    (he : errs fp = true)
    (hp : pyMem (PyVal.path fp.s) st.processed_files = false)
    (hr : fp.s ∉ st.recovery)
    (h1 : ∀ g ∈ ts1, g.s ≠ fp.s) (h2 : ∀ g ∈ ts2, g.s ≠ fp.s) :
    workerRun root dupdir errs st (ts1 ++ fp :: ts2)
      = workerRun root dupdir errs st (ts1 ++ ts2) ∧
    pyMem (PyVal.path fp.s)
      (workerRun root dupdir errs st (ts1 ++ fp :: ts2)).processed_files = false ∧
    fp.s ∉ (workerRun root dupdir errs st (ts1 ++ fp :: ts2)).recovery := by
  have heq : workerRun root dupdir errs st (ts1 ++ fp :: ts2)
      = workerRun root dupdir errs st (ts1 ++ ts2) := by
    simp only [workerRun, List.foldl_append, List.foldl_cons]
    rw [workerTask_err root dupdir errs _ fp he]
  refine ⟨heq, ?_, ?_⟩
  · rw [heq]
    cases hmem : pyMem (PyVal.path fp.s)
        (workerRun root dupdir errs st (ts1 ++ ts2)).processed_files with
    | false => rfl
    | true =>
      rcases workerRun_processed root dupdir errs st (ts1 ++ ts2) _ hmem with h' | ⟨g, hg, hv⟩
      · rw [hp] at h'; exact absurd h' (by simp)
      · injection hv with h''
        rcases List.mem_append.mp hg with hg1 | hg2
        · exact absurd h''.symm (h1 g hg1)
        · exact absurd h''.symm (h2 g hg2)
  · rw [heq]
    intro hmem
    rcases workerRun_recovery root dupdir errs st (ts1 ++ ts2) _ hmem with h' | ⟨g, hg, hv⟩
    · exact hr h'
    · rcases List.mem_append.mp hg with hg1 | hg2
      · exact h1 g hg1 hv.symm
      · exact h2 g hg2 hv.symm

/-- Concrete inputs for the C8 witness: one failing task between two
good ones. -/
def c8errs : PyPath → Bool := fun g => g.s == "r/bad.txt"

def c8st : RunState :=
  { fs := [("r/g1.txt", "A"), ("r/bad.txt", "B"), ("r/g2.txt", "C")],
    file_hashes := [], processed_files := [], recovery := [] }

def c8bad : PyPath := { s := "r/bad.txt" }

theorem c8_witness :
    c8errs c8bad = true ∧
    (workerRun "r" "r/duplicate_files" c8errs c8st [{ s := "r/g1.txt" }, c8bad, { s := "r/g2.txt" }]
      = workerRun "r" "r/duplicate_files" c8errs c8st [{ s := "r/g1.txt" }, { s := "r/g2.txt" }] ∧
    pyMem (PyVal.path c8bad.s)
      (workerRun "r" "r/duplicate_files" c8errs c8st
        [{ s := "r/g1.txt" }, c8bad, { s := "r/g2.txt" }]).processed_files = false ∧
    c8bad.s ∉ (workerRun "r" "r/duplicate_files" c8errs c8st
        [{ s := "r/g1.txt" }, c8bad, { s := "r/g2.txt" }]).recovery) :=
  ⟨by decide,
   c8_per_file_error_abandoned "r" "r/duplicate_files" c8errs c8st
     [{ s := "r/g1.txt" }] [{ s := "r/g2.txt" }] c8bad
     (by decide) (by decide) (by decide) (by decide) (by decide)⟩

/-- C9.  A file whose extension passes the allow-list is enqueued (the
recovery-set exclusion never removes a scanned `Path`), and a file
whose extension is not in the allow-list is not enqueued and, provided
its path is no enqueued task's source or candidate destination, is
left untouched at its original location by the whole run. -/
theorem c9_allow_list_filter (root : String) (ledger : Option (List String))
    (tree : List (PyPath × String)) (errs : PyPath → Bool) (f : PyPath) (c : String)
    (hmem : f ∈ tree.map (fun e => e.1))
    (hlook : fsLookup (initFS tree) f.s = some c) :
    (filter_files f = true → f ∈ scanQueue ledger tree) ∧
    (filter_files f = false →
      f ∉ scanQueue ledger tree ∧
      ((∀ g ∈ scanQueue ledger tree,
          f.s ≠ g.s ∧ f.s ≠ extDest root g ∧
            f.s ≠ pathJoin (pathJoin root "duplicate_files") g.name) →
        fsLookup (sort_files root ledger tree errs).2.fs f.s = some c)) := by
  constructor
  · intro hft
    exact List.mem_filter.mpr
      ⟨List.mem_filter.mpr ⟨hmem, by simp [pyMem_path_load_recovery]⟩, hft⟩
  · intro hff
    constructor
    · intro hin
      have := (List.mem_filter.mp hin).2
      rw [hff] at this
      exact absurd this (by simp)
    · intro hnd
      by_cases hq : (scanQueue ledger tree).length = 0
      · simp only [sort_files, hq, if_true]
        exact hlook
      · simp only [sort_files, hq, if_false]
        rw [workerRun_fs_other root (pathJoin root "duplicate_files") errs _
          (scanQueue ledger tree) f.s hnd]
        exact hlook

/-- Concrete inputs for the C9 witness: one allowed and one disallowed
file. -/
def c9tree : List (PyPath × String) :=
  [({ s := "r/notes.md" }, "M"), ({ s := "r/a.txt" }, "A")]

theorem c9_witness :
    ({ s := "r/notes.md" } : PyPath) ∈ c9tree.map (fun e => e.1) ∧
    ((filter_files { s := "r/notes.md" } = true →
        ({ s := "r/notes.md" } : PyPath) ∈ scanQueue none c9tree) ∧
     (filter_files { s := "r/notes.md" } = false →
        ({ s := "r/notes.md" } : PyPath) ∉ scanQueue none c9tree ∧
        ((∀ g ∈ scanQueue none c9tree,
            ("r/notes.md" : String) ≠ g.s ∧ "r/notes.md" ≠ extDest "r" g ∧
              "r/notes.md" ≠ pathJoin (pathJoin "r" "duplicate_files") g.name) →
          fsLookup (sort_files "r" none c9tree noErr).2.fs "r/notes.md" = some "M"))) :=
  ⟨by decide,
   c9_allow_list_filter "r" none c9tree noErr { s := "r/notes.md" } "M"
     (by decide) (by decide)⟩

/-- C6, amended.  The destination-folder derivation for an
extensionless file is `no_extension` (so its derived destination
directory is `root/no_extension`), but an extensionless file fails the
allow-list filter, is never enqueued, and the run leaves it untouched
at its source instead of relocating it. -/
theorem c6_extensionless_amended (root : String) (ledger : Option (List String))
    (tree : List (PyPath × String)) (errs : PyPath → Bool) (f : PyPath) (c : String)
    (hsuf : f.suffix = "")
    (hlook : fsLookup (initFS tree) f.s = some c)
    (hnd : ∀ g ∈ scanQueue ledger tree,
      f.s ≠ g.s ∧ f.s ≠ extDest root g ∧
        f.s ≠ pathJoin (pathJoin root "duplicate_files") g.name) :
    extensionOf f = "no_extension" ∧
    filter_files f = false ∧
    f ∉ scanQueue ledger tree ∧
    fsLookup (sort_files root ledger tree errs).2.fs f.s = some c := by
  refine ⟨by simp [extensionOf, hsuf]; decide, by simp [filter_files, hsuf]; decide, ?_, ?_⟩
  · intro hin
    have := (List.mem_filter.mp hin).2
    rw [show filter_files f = false by simp [filter_files, hsuf]; decide] at this
    exact absurd this (by simp)
  · by_cases hq : (scanQueue ledger tree).length = 0
    · simp only [sort_files, hq, if_true]
      exact hlook
    · simp only [sort_files, hq, if_false]
      rw [workerRun_fs_other root (pathJoin root "duplicate_files") errs _
        (scanQueue ledger tree) f.s hnd]
      exact hlook

/-- Concrete inputs for the C6 witness: an extensionless file next to
an allowed one, so the run does move something. -/
def c6tree : List (PyPath × String) :=
  [({ s := "r/README" }, "R"), ({ s := "r/a.txt" }, "A")]

theorem c6_witness :
    PyPath.suffix { s := "r/README" } = "" ∧
    (extensionOf { s := "r/README" } = "no_extension" ∧
     filter_files { s := "r/README" } = false ∧
     ({ s := "r/README" } : PyPath) ∉ scanQueue none c6tree ∧
     fsLookup (sort_files "r" none c6tree noErr).2.fs "r/README" = some "R") :=
  ⟨by decide,
   c6_extensionless_amended "r" none c6tree noErr { s := "r/README" } "R"
     (by decide) (by decide) (by decide)⟩

/-- C5, amended.  The nothing-to-do outcome is reported, with the
filesystem left untouched and nothing recorded, exactly when the
filtered scan enqueues zero tasks; `sort_files` then returns before
any worker starts. -/
theorem c5_nothing_to_do_amended (root : String) (ledger : Option (List String))
    (tree : List (PyPath × String)) (errs : PyPath → Bool)
    (h : scanQueue ledger tree = []) :
    sort_files root ledger tree errs =
      (Outcome.noFiles,
        { fs := initFS tree, file_hashes := [],
          processed_files := load_recovery ledger, recovery := [] }) := by
  simp [sort_files, h]

/-- Concrete inputs for the C5 witness: a tree whose only file is
filtered out by the allow-list, with a non-empty ledger. -/
def c5tree : List (PyPath × String) := [({ s := "r/notes.md" }, "M")]

theorem c5_witness :
    scanQueue (some ["r/old.txt"]) c5tree = [] ∧
    sort_files "r" (some ["r/old.txt"]) c5tree noErr =
      (Outcome.noFiles,
        { fs := initFS c5tree, file_hashes := [],
          processed_files := load_recovery (some ["r/old.txt"]), recovery := [] }) :=
  ⟨by decide,
   c5_nothing_to_do_amended "r" (some ["r/old.txt"]) c5tree noErr (by decide)⟩

/-- C10.  A file classified as a duplicate is moved to exactly
`root/duplicate_files/<basename>` with its basename kept unchanged,
and when two duplicates processed in one run share a basename the
later move replaces the earlier file at that single path, so the
duplicates area retains at most one file per basename. -/
theorem c10_duplicate_basename (root : String) (st : RunState) (f g : PyPath) (cf cg : String)
    (hpf : pyMem (PyVal.path f.s) st.processed_files = false)
    (hpg : pyMem (PyVal.path g.s) st.processed_files = false)
    (hlf : fsLookup st.fs f.s = some cf)
    (hlg : fsLookup st.fs g.s = some cg)
    (hhf : (fsLookup st.file_hashes (calculate_checksum cf)).isSome = true)
    (hhg : (fsLookup st.file_hashes (calculate_checksum cg)).isSome = true)
    (hname : f.name = g.name)
    (hne : f.s ≠ g.s)
    (hgd : g.s ≠ dupDest root g) :
    fsLookup (workerTask root (pathJoin root "duplicate_files") noErr st f).fs (dupDest root f)
      = some cf ∧
    dupDest root g = dupDest root f ∧
    fsLookup (workerRun root (pathJoin root "duplicate_files") noErr st [f, g]).fs
      (dupDest root f) = some cg := by
  have hdd : dupDest root g = dupDest root f := by
    unfold dupDest; rw [hname]
  have h1 := workerTask_dup_branch root (pathJoin root "duplicate_files") st f cf hpf hlf hhf
  have hfs1 : (workerTask root (pathJoin root "duplicate_files") noErr st f).fs
      = shutilMove st.fs f.s (dupDest root f) := congrArg RunState.fs h1
  have hp2 : pyMem (PyVal.path g.s)
      (workerTask root (pathJoin root "duplicate_files") noErr st f).processed_files
      = false := by
    rw [congrArg RunState.processed_files h1, pyMem_cons, hpg]
    simp [pyEq, Ne.symm hne]
  have hl2 : fsLookup (workerTask root (pathJoin root "duplicate_files") noErr st f).fs g.s
      = some cg := by
    rw [hfs1, fsLookup_shutilMove_other st.fs f.s (dupDest root f) g.s (Ne.symm hne) (hdd ▸ hgd)]
    exact hlg
  have hh2 : (fsLookup
      (workerTask root (pathJoin root "duplicate_files") noErr st f).file_hashes
      (calculate_checksum cg)).isSome = true := by
    rw [congrArg RunState.file_hashes h1]
    exact hhg
  have h2 := workerTask_dup_branch root (pathJoin root "duplicate_files")
    (workerTask root (pathJoin root "duplicate_files") noErr st f) g cg hp2 hl2 hh2
  have hfs2 : (workerRun root (pathJoin root "duplicate_files") noErr st [f, g]).fs
      = shutilMove (workerTask root (pathJoin root "duplicate_files") noErr st f).fs g.s
          (dupDest root g) := congrArg RunState.fs h2
  refine ⟨?_, hdd, ?_⟩
  · rw [hfs1, fsLookup_shutilMove st.fs f.s (dupDest root f) (dupDest root f) cf hlf, if_pos rfl]
  · rw [hfs2, fsLookup_shutilMove
      (workerTask root (pathJoin root "duplicate_files") noErr st f).fs g.s
      (dupDest root g) (dupDest root f) cg hl2, if_pos hdd.symm]

/-- Concrete inputs for the C10 witness: two same-basename duplicate
files whose fingerprints are both already in the dedup index. -/
def c10st : RunState :=
  { fs := [("r/d1/z.txt", "X"), ("r/d2/z.txt", "Y")],
    file_hashes := [("X", "r/txt/o1.txt"), ("Y", "r/txt/o2.txt")],
    processed_files := [], recovery := [] }

theorem c10_witness :
    PyPath.name { s := "r/d1/z.txt" } = PyPath.name { s := "r/d2/z.txt" } ∧
    (fsLookup (workerTask "r" (pathJoin "r" "duplicate_files") noErr c10st
        { s := "r/d1/z.txt" }).fs (dupDest "r" { s := "r/d1/z.txt" }) = some "X" ∧
     dupDest "r" { s := "r/d2/z.txt" } = dupDest "r" { s := "r/d1/z.txt" } ∧
     fsLookup (workerRun "r" (pathJoin "r" "duplicate_files") noErr c10st
        [{ s := "r/d1/z.txt" }, { s := "r/d2/z.txt" }]).fs
        (dupDest "r" { s := "r/d1/z.txt" }) = some "Y") :=
  ⟨by decide,
   c10_duplicate_basename "r" c10st { s := "r/d1/z.txt" } { s := "r/d2/z.txt" } "X" "Y"
     (by decide) (by decide) (by decide) (by decide) (by decide) (by decide)
     (by decide) (by decide) (by decide)⟩

/-- C7.  Two files with identical content and the same extension in a
fixed deterministic queue order: the first dequeued is placed as the
original in its extension folder and its fingerprint is recorded in
the dedup index mapping to that destination, while the second is
routed to the duplicates area; both source paths are vacated. -/
theorem c7_first_original_second_duplicate (root : String) (st : RunState)
    (f g : PyPath) (c : String)
    (hpf : pyMem (PyVal.path f.s) st.processed_files = false)
    (hpg : pyMem (PyVal.path g.s) st.processed_files = false)
    (hlf : fsLookup st.fs f.s = some c)
    (hlg : fsLookup st.fs g.s = some c)
    (hh : fsLookup st.file_hashes (calculate_checksum c) = none)
    (hext : extensionOf f = extensionOf g)
    (hne : f.s ≠ g.s)
    (hfe : f.s ≠ extDest root f)
    (hfd : f.s ≠ dupDest root g)
    (hge : g.s ≠ extDest root f)
    (hgd : g.s ≠ dupDest root g)
    (hed : extDest root f ≠ dupDest root g) :
    fsLookup (workerRun root (pathJoin root "duplicate_files") noErr st [f, g]).fs
      (extDest root f) = some c ∧
    fsLookup (workerRun root (pathJoin root "duplicate_files") noErr st [f, g]).fs
      (dupDest root g) = some c ∧
    fsLookup (workerRun root (pathJoin root "duplicate_files") noErr st [f, g]).file_hashes
      (calculate_checksum c) = some (extDest root f) ∧
    fsLookup (workerRun root (pathJoin root "duplicate_files") noErr st [f, g]).fs f.s = none ∧
    fsLookup (workerRun root (pathJoin root "duplicate_files") noErr st [f, g]).fs g.s = none := by
  have h1 := workerTask_orig_branch root (pathJoin root "duplicate_files") st f c hpf hlf hh
  have hfs1 : (workerTask root (pathJoin root "duplicate_files") noErr st f).fs
      = shutilMove st.fs f.s (extDest root f) := congrArg RunState.fs h1
  have hhash1 : (workerTask root (pathJoin root "duplicate_files") noErr st f).file_hashes
      = (calculate_checksum c, extDest root f) :: st.file_hashes :=
    congrArg RunState.file_hashes h1
  have hp2 : pyMem (PyVal.path g.s)
      (workerTask root (pathJoin root "duplicate_files") noErr st f).processed_files
      = false := by
    rw [congrArg RunState.processed_files h1, pyMem_cons, hpg]
    simp [pyEq, Ne.symm hne]
  have hl2 : fsLookup (workerTask root (pathJoin root "duplicate_files") noErr st f).fs g.s
      = some c := by
    rw [hfs1, fsLookup_shutilMove_other st.fs f.s (extDest root f) g.s (Ne.symm hne) hge]
    exact hlg
  have hh2 : (fsLookup
      (workerTask root (pathJoin root "duplicate_files") noErr st f).file_hashes
      (calculate_checksum c)).isSome = true := by
    rw [hhash1]
    simp [fsLookup]
  have h2 := workerTask_dup_branch root (pathJoin root "duplicate_files")
    (workerTask root (pathJoin root "duplicate_files") noErr st f) g c hp2 hl2 hh2
  have hfs2 : (workerRun root (pathJoin root "duplicate_files") noErr st [f, g]).fs
      = shutilMove (workerTask root (pathJoin root "duplicate_files") noErr st f).fs g.s
          (dupDest root g) := congrArg RunState.fs h2
  have hhash2 : (workerRun root (pathJoin root "duplicate_files") noErr st [f, g]).file_hashes
      = (calculate_checksum c, extDest root f) :: st.file_hashes :=
    (congrArg RunState.file_hashes h2).trans hhash1
  refine ⟨?_, ?_, ?_, ?_, ?_⟩
  · rw [hfs2, fsLookup_shutilMove_other
        (workerTask root (pathJoin root "duplicate_files") noErr st f).fs g.s
        (dupDest root g) (extDest root f) (Ne.symm hge) hed,
      hfs1, fsLookup_shutilMove st.fs f.s (extDest root f) (extDest root f) c hlf, if_pos rfl]
  · rw [hfs2, fsLookup_shutilMove
        (workerTask root (pathJoin root "duplicate_files") noErr st f).fs g.s
        (dupDest root g) (dupDest root g) c hl2, if_pos rfl]
  · rw [hhash2]
    simp [fsLookup]
  · rw [hfs2, fsLookup_shutilMove_other
        (workerTask root (pathJoin root "duplicate_files") noErr st f).fs g.s
        (dupDest root g) f.s hne hfd,
      hfs1, fsLookup_shutilMove st.fs f.s (extDest root f) f.s c hlf, if_neg hfe, if_pos rfl]
  · rw [hfs2, fsLookup_shutilMove
        (workerTask root (pathJoin root "duplicate_files") noErr st f).fs g.s
        (dupDest root g) g.s c hl2, if_neg hgd, if_pos rfl]

/-- Concrete inputs for the C7 witness: two identical-content `.txt`
files with distinct basenames in queue order. -/
def c7st : RunState :=
  { fs := [("r/d1/a.txt", "X"), ("r/d2/b.txt", "X")],
    file_hashes := [], processed_files := [], recovery := [] }

theorem c7_witness :
    fsLookup c7st.file_hashes (calculate_checksum "X") = none ∧
    (fsLookup (workerRun "r" (pathJoin "r" "duplicate_files") noErr c7st
        [{ s := "r/d1/a.txt" }, { s := "r/d2/b.txt" }]).fs
        (extDest "r" { s := "r/d1/a.txt" }) = some "X" ∧
     fsLookup (workerRun "r" (pathJoin "r" "duplicate_files") noErr c7st
        [{ s := "r/d1/a.txt" }, { s := "r/d2/b.txt" }]).fs
        (dupDest "r" { s := "r/d2/b.txt" }) = some "X" ∧
     fsLookup (workerRun "r" (pathJoin "r" "duplicate_files") noErr c7st
        [{ s := "r/d1/a.txt" }, { s := "r/d2/b.txt" }]).file_hashes
        (calculate_checksum "X") = some (extDest "r" { s := "r/d1/a.txt" }) ∧
     fsLookup (workerRun "r" (pathJoin "r" "duplicate_files") noErr c7st
        [{ s := "r/d1/a.txt" }, { s := "r/d2/b.txt" }]).fs "r/d1/a.txt" = none ∧
     fsLookup (workerRun "r" (pathJoin "r" "duplicate_files") noErr c7st
        [{ s := "r/d1/a.txt" }, { s := "r/d2/b.txt" }]).fs "r/d2/b.txt" = none) :=
  ⟨by decide,
   c7_first_original_second_duplicate "r" c7st { s := "r/d1/a.txt" } { s := "r/d2/b.txt" } "X"
     (by decide) (by decide) (by decide) (by decide) (by decide) (by decide)
     (by decide) (by decide) (by decide) (by decide) (by decide) (by decide)⟩

/-- C1, amended.  Provided no two enqueued files share a candidate
destination and no source path coincides with a candidate destination
(which holds in particular when basenames are pairwise distinct),
after a run over a tree of allow-listed files the final filesystem is
exactly the placement map: each scanned file's content sits at the one
destination assigned to it — its extension folder, or the duplicates
area — distinct files sit at distinct paths, and no file remains at
its original source location.  Without that proviso the claim fails: a
later move silently overwrites (see the counterexample). -/
theorem c1_each_file_exactly_once_amended (root : String) (ledger : Option (List String))
    (tree : List (PyPath × String))
    (HD : DisjDests root tree) (HS : SrcsOK root tree)
    (HF : ∀ e ∈ tree, filter_files e.1 = true) :
    (∀ p, fsLookup (runResult root ledger tree).fs p = fsLookup (placeAll root [] tree) p) ∧
    (∀ pre e post, tree = pre ++ e :: post →
      fsLookup (runResult root ledger tree).fs
        (placedDest root (pre.map (fun x => x.2)) e) = some e.2) ∧
    (∀ e ∈ tree, fsLookup (runResult root ledger tree).fs e.1.s = none) := by
  have hspec := runResult_spec root ledger tree HD HS HF
  refine ⟨hspec.1, ?_, ?_⟩
  · intro pre e post hsplit
    rw [hspec.1, hsplit]
    exact fsLookup_placeAll_split root pre post e (hsplit ▸ HD)
  · intro e he
    rw [hspec.1]
    apply fsLookup_placeAll_none
    intro x hx hmem
    exact HS.1 e he x hx hmem

/-- Concrete inputs for the C1 witness: two distinct-basename files. -/
def c1tree : List (PyPath × String) :=
  [({ s := "r/d1/a.txt" }, "X"), ({ s := "r/d2/c.jpg" }, "Y")]

theorem c1_witness :
    DisjDests "r" c1tree ∧ SrcsOK "r" c1tree ∧
    ((∀ p, fsLookup (runResult "r" none c1tree).fs p = fsLookup (placeAll "r" [] c1tree) p) ∧
     (∀ pre e post, c1tree = pre ++ e :: post →
        fsLookup (runResult "r" none c1tree).fs
          (placedDest "r" (pre.map (fun x => x.2)) e) = some e.2) ∧
     (∀ e ∈ c1tree, fsLookup (runResult "r" none c1tree).fs e.1.s = none)) :=
  ⟨by decide, by decide,
   c1_each_file_exactly_once_amended "r" none c1tree (by decide) (by decide) (by decide)⟩

/-- C2, amended.  A file is routed to the duplicates area iff its
fingerprint is already in the dedup index when it is processed, that
is, iff some earlier-processed file had the same content — the code
never checks whether the target filename already exists at the
destination.  Under the distinct-destination proviso two
distinct-content files are never both written to the same
non-duplicate destination: their assigned placements differ and each
holds its own content; and the final index maps every fingerprint to
the single destination of its first original.  Without the proviso the
claim fails (see the counterexample). -/
theorem c2_dedup_exclusivity_amended (root : String) (ledger : Option (List String))
    (tree : List (PyPath × String))
    (HD : DisjDests root tree) (HS : SrcsOK root tree)
    (HF : ∀ e ∈ tree, filter_files e.1 = true) :
    (∀ pre e post, tree = pre ++ e :: post →
      (e.2 ∈ pre.map (fun x => x.2) →
        fsLookup (runResult root ledger tree).fs (dupDest root e.1) = some e.2) ∧
      (e.2 ∉ pre.map (fun x => x.2) →
        fsLookup (runResult root ledger tree).fs (extDest root e.1) = some e.2)) ∧
    (∀ h, fsLookup (runResult root ledger tree).file_hashes h = firstOrigDest root tree h) ∧
    (∀ pre e mid f post, tree = pre ++ e :: mid ++ f :: post → e.2 ≠ f.2 →
      placedDest root (pre.map (fun x => x.2)) e
        ≠ placedDest root ((pre ++ e :: mid).map (fun x => x.2)) f) := by
  have hspec := runResult_spec root ledger tree HD HS HF
  refine ⟨?_, hspec.2, ?_⟩
  · intro pre e post hsplit
    have hsp := fsLookup_placeAll_split root pre post e (hsplit ▸ HD)
    constructor
    · intro hin
      rw [show placedDest root (pre.map (fun x => x.2)) e = dupDest root e.1 from by
        unfold placedDest; rw [if_pos hin]] at hsp
      rw [hspec.1, hsplit]
      exact hsp
    · intro hnotin
      rw [show placedDest root (pre.map (fun x => x.2)) e = extDest root e.1 from by
        unfold placedDest; rw [if_neg hnotin]] at hsp
      rw [hspec.1, hsplit]
      exact hsp
  · intro pre e mid f post hsplit hne heq
    have hD2 : DisjDests root ((pre ++ e :: mid) ++ (f :: post)) := hsplit ▸ HD
    have h2 := (List.pairwise_append.mp hD2).2.2 e (by simp) f (by simp)
    exact h2 (placedDest root (pre.map (fun x => x.2)) e)
      (placedDest_mem_cands root (pre.map (fun x => x.2)) e)
      (placedDest root ((pre ++ e :: mid).map (fun x => x.2)) f)
      (placedDest_mem_cands root ((pre ++ e :: mid).map (fun x => x.2)) f) heq

/-- Concrete inputs for the C2 witness: a genuine duplicate pair plus
one distinct-content file, all with distinct basenames. -/
def c2tree : List (PyPath × String) :=
  [({ s := "r/d1/a.txt" }, "X"), ({ s := "r/d2/b.txt" }, "X"), ({ s := "r/d3/c.txt" }, "Z")]

theorem c2_witness :
    DisjDests "r" c2tree ∧ SrcsOK "r" c2tree ∧
    ((∀ pre e post, c2tree = pre ++ e :: post →
        (e.2 ∈ pre.map (fun x => x.2) →
          fsLookup (runResult "r" none c2tree).fs (dupDest "r" e.1) = some e.2) ∧
        (e.2 ∉ pre.map (fun x => x.2) →
          fsLookup (runResult "r" none c2tree).fs (extDest "r" e.1) = some e.2)) ∧
     (∀ h, fsLookup (runResult "r" none c2tree).file_hashes h = firstOrigDest "r" c2tree h) ∧
     (∀ pre e mid f post, c2tree = pre ++ e :: mid ++ f :: post → e.2 ≠ f.2 →
        placedDest "r" (pre.map (fun x => x.2)) e
          ≠ placedDest "r" ((pre ++ e :: mid).map (fun x => x.2)) f)) :=
  ⟨by decide, by decide,
   c2_dedup_exclusivity_amended "r" none c2tree (by decide) (by decide) (by decide)⟩

end FileSorter
